import Mathlib

/-!
# Recipe API: a shallow embedding of the request handlers

The handlers of `handlers/recipe_handler.go` are embedded as pure functions from the
process state (the recipe collection and the in-memory `recipeCache`) and the
request to a response, the next state and the list of cache and store calls made.

Go strings are Lean strings read as sequences of Unicode code points (valid UTF-8).
The outcome of each call to the document store (success or failure) is an explicit
argument of the handler that makes the call.
-/

namespace RecipeAPI

/-! ## Package `strings` -/

/-- Go `unicode.IsSpace`: the code points with the White_Space property. -/
def isSpace (c : Char) : Bool :=
  let n := c.toNat
  n == 0x09 || n == 0x0A || n == 0x0B || n == 0x0C || n == 0x0D || n == 0x20 ||
  n == 0x85 || n == 0xA0 || n == 0x1680 || (0x2000 ≤ n && n ≤ 0x200A) ||
  n == 0x2028 || n == 0x2029 || n == 0x202F || n == 0x205F || n == 0x3000

/-- Removal of the leading and the trailing code points that satisfy `p`. -/
def trimFunc (p : Char → Bool) (l : List Char) : List Char :=
  (l.dropWhile p).rdropWhile p

/-- Go `strings.TrimSpace`. -/
def TrimSpace (s : String) : String := ⟨trimFunc isSpace s.data⟩

/-- Go `strings.Trim(s, cutset)`. -/
def Trim (s : String) (cutset : List Char) : String :=
  ⟨trimFunc (fun c => cutset.contains c) s.data⟩

/-- The cutset of the handlers: double quote, single quote, space, backslash. -/
def quoteCutset : List Char := [Char.ofNat 34, Char.ofNat 39, Char.ofNat 32, Char.ofNat 92]

/-- The pieces of a code point sequence between occurrences of `sep`. -/
def splitOn (sep : Char) : List Char → List (List Char)
  | [] => [[]]
  | c :: cs =>
    if c = sep then [] :: splitOn sep cs
    else
      match splitOn sep cs with
      | [] => [[c]]
      | p :: ps => (c :: p) :: ps

/-- Go `strings.Split(s, sep)` for a one-character separator. -/
def Split (s : String) (sep : Char) : List String := (splitOn sep s.data).map String.mk

/-! ## Object identifiers (`primitive.ObjectIDFromHex`) -/

/-- A `primitive.ObjectID`: twelve bytes. -/
abbrev ObjectID := List Nat

/-- Go `encoding/hex` `fromHexChar`: both cases of the letters are accepted. -/
def fromHexChar (c : Char) : Option Nat :=
  let n := c.toNat
  if 48 ≤ n ∧ n ≤ 57 then some (n - 48)
  else if 97 ≤ n ∧ n ≤ 102 then some (n - 97 + 10)
  else if 65 ≤ n ∧ n ≤ 70 then some (n - 65 + 10)
  else none

/-- Go `hex.Decode`: two hexadecimal digits per byte. -/
def hexDecode : List Char → Option (List Nat)
  | [] => some []
  | [_] => none
  | a :: b :: rest =>
    match fromHexChar a, fromHexChar b, hexDecode rest with
    | some x, some y, some r => some ((x * 16 + y) :: r)
    | _, _, _ => none

/-- The driver function `primitive.ObjectIDFromHex`: the string must be 24 bytes long
and decode as hexadecimal. -/
def ObjectIDFromHex (s : String) : Option ObjectID :=
  if s.utf8ByteSize ≠ 24 then none else hexDecode s.data

/-! ## The type `float64` -/

/-- A non-negative finite `float64`, written as the fraction `num / den`. -/
structure F64 where
  num : Nat
  den : Nat
  deriving DecidableEq

/-- The rational value of a `float64`. -/
def F64.toRat (x : F64) : ℚ := (x.num : ℚ) / (x.den : ℚ)

/-- Position of the highest set bit, by halving (`fuel` bounds the number of steps). -/
def log2Fuel : Nat → Nat → Nat
  | 0, _ => 0
  | fuel + 1, n => if n < 2 then 0 else log2Fuel fuel (n / 2) + 1

/-- Position of the highest set bit of `n` (zero for `n = 0`). -/
def ilog2 (n : Nat) : Nat := log2Fuel n n

/-- Rounding of the quotient `P / Q` to an integer, ties to even. -/
def roundHalfEven (P Q : Nat) : Nat :=
  let n := P / Q
  let rem := P % Q
  if 2 * rem < Q then n else if Q < 2 * rem then n + 1 else n + n % 2

/-- The power of two by which the denominator of `p / q` is multiplied before rounding
(it exceeds one when the quotient has more than 53 bits before the binary point). -/
def scaleDn (p q : Nat) : Nat := 2 ^ (ilog2 p - (ilog2 q + 52))

/-- The power of two by which the numerator of `p / q` is multiplied before rounding, so
that the integer part of the scaled quotient has exactly 53 bits. -/
def scaleUp (p q : Nat) : Nat :=
  let up := 2 ^ (ilog2 q + 52 - ilog2 p)
  if (p * up) / (q * scaleDn p q) < 2 ^ 52 then 2 * up else up

/-- IEEE 754 binary64 rounding (to nearest, ties to even) of the positive quotient
`p / q`: the quotient is scaled by a power of two so that its integer part has 53 bits,
rounded to an integer, and scaled back. Exponent overflow and subnormal results do not
occur for the quotients of 64-bit integers met here and are not represented. -/
def F64.round (p q : Nat) : F64 :=
  if p = 0 then ⟨0, 1⟩
  else ⟨roundHalfEven (p * scaleUp p q) (q * scaleDn p q) * scaleDn p q, scaleUp p q⟩

/-- The conversion `float64(n)` of a non-negative `int`. -/
def F64.ofInt (n : Nat) : F64 := F64.round n 1

/-- The `float64` division `x / y`. -/
def F64.div (x y : F64) : F64 := F64.round (x.num * y.den) (x.den * y.num)

/-- The `float64` product `x * y`. -/
def F64.mul (x y : F64) : F64 := F64.round (x.num * y.num) (x.den * y.den)

/-- The conversion `int(x)` of a non-negative `float64`: truncation. -/
def F64.toInt (x : F64) : Nat := x.num / x.den

/-- A finite `float64` with its sign: the magnitude `mag`, negated when `neg` holds. -/
structure Double where
  neg : Bool
  mag : F64
  deriving DecidableEq

/-- The rational value of a signed `float64`. -/
def Double.toRat (x : Double) : ℚ := if x.neg then -x.mag.toRat else x.mag.toRat

/-! ## Data model (`models/recipe.go`) -/

/-- The struct `models.Recipe`. -/
structure Recipe where
  ID : ObjectID
  Title : String
  Description : String
  Ingredients : List String
  ImagePath : String
  Ratings : List Int
  CreatedAt : Nat
  deriving DecidableEq

/-- The struct `models.RatingInput`. -/
structure RatingInput where
  Rating : Int
  deriving DecidableEq

/-- A document returned by an aggregation pipeline that ends in the `$addFields` stage:
the stored recipe and the derived `avg_rating`, a double (absent for an empty ratings
list). -/
structure RecipeDoc where
  recipe : Recipe
  avg_rating : Option Double
  deriving DecidableEq

/-- The store operator `$avg` over the `ratings` array: null for an empty array, else the
integer sum converted to a double and divided, in `float64`, by the count. -/
def avg (rs : List Int) : Option Double :=
  if rs = [] then none
  else some ⟨decide (rs.sum < 0), F64.div (F64.ofInt rs.sum.natAbs) (F64.ofInt rs.length)⟩

/-- The pipeline stage `$addFields` with `avg_rating = $avg $ratings`. -/
def addFields (r : Recipe) : RecipeDoc := ⟨r, avg r.Ratings⟩

/-! ## Process state and responses -/

/-- The `sync.Map` named `recipeCache`: request id string to cached document. -/
abbrev Cache := String → Option RecipeDoc

/-- The method `sync.Map.Store`. -/
def Cache.Store (c : Cache) (key : String) (val : RecipeDoc) : Cache :=
  fun k => if k = key then some val else c k

/-- The method `sync.Map.Delete`. -/
def Cache.Delete (c : Cache) (key : String) : Cache :=
  fun k => if k = key then none else c k

/-- The collection `config.RecipeCollection` (documents in insertion order) together
with `recipeCache`. -/
structure State where
  store : List Recipe
  cache : Cache

/-- The state at process start: empty collection, empty cache. -/
def State.init : State := ⟨[], fun _ => none⟩

/-- A call on the cache or on the store made while handling a request. -/
inductive Event
  | cacheLoad (key : String)
  | cacheStore (key : String)
  | cacheDelete (key : String)
  | insertOne
  | aggregate
  | cursorAll
  | updateOne
  deriving DecidableEq

/-- The JSON payload of a response. -/
inductive Payload
  | error (message : String)
  | message (text : String)
  | recipe (r : Recipe)
  | doc (d : RecipeDoc)
  | docs (ds : List RecipeDoc)
  deriving DecidableEq

/-- An HTTP response: status code and payload. -/
structure Response where
  status : Nat
  payload : Payload
  deriving DecidableEq

/-- What handling one request produces. -/
structure Result where
  resp : Response
  state : State
  log : List Event

/-- The helper `respondError`: the state is the one reached so far. -/
def respondError (s : State) (log : List Event) (status : Nat) (message : String) : Result :=
  ⟨⟨status, .error message⟩, s, log⟩

/-! ## Store operations -/

/-- How an `Aggregate` call followed by `cursor.All` ends. -/
inductive AggOutcome
  | aggregateErr
  | cursorErr
  | ok
  deriving DecidableEq

/-- The pipeline `$match _id = objID` then `$addFields avg_rating`. -/
def aggregateByID (store : List Recipe) (objID : ObjectID) : List RecipeDoc :=
  (store.filter (fun r => r.ID = objID)).map addFields

/-- The update `UpdateOne(_id = objID, $push ratings v)`: the first matching document
gets the rating appended; the second component is `MatchedCount`. -/
def updateOnePush (objID : ObjectID) (v : Int) : List Recipe → List Recipe × Nat
  | [] => ([], 0)
  | r :: rs =>
    if r.ID = objID then ({ r with Ratings := r.Ratings ++ [v] } :: rs, 1)
    else ((r :: (updateOnePush objID v rs).1), (updateOnePush objID v rs).2)

/-! ## Handlers -/

/-- The handler `GetRecipeByID`; `o` is the outcome of the store calls, should they be
made. -/
def GetRecipeByID (s : State) (id : String) (o : AggOutcome) : Result :=
  match ObjectIDFromHex id with
  | none => respondError s [] 400 "Invalid ID format"
  | some objID =>
    match s.cache id with
    | some val => ⟨⟨200, .doc val⟩, s, [.cacheLoad id]⟩
    | none =>
      match o with
      | .aggregateErr => respondError s [.cacheLoad id, .aggregate] 500 "Database error"
      | .cursorErr =>
        respondError s [.cacheLoad id, .aggregate, .cursorAll] 404 "Recipe not found"
      | .ok =>
        match aggregateByID s.store objID with
        | [] => respondError s [.cacheLoad id, .aggregate, .cursorAll] 404 "Recipe not found"
        | recipe :: _ =>
          ⟨⟨200, .doc recipe⟩, { s with cache := s.cache.Store id recipe },
            [.cacheLoad id, .aggregate, .cursorAll, .cacheStore id]⟩

/-- The body of a rating request as `json.Decoder.Decode` sees it: not decodable into
`RatingInput`, an object without a `rating` key, or an object whose `rating` is the
integer `v`. -/
inductive RatingBody
  | malformed
  | noRating
  | rating (v : Int)
  deriving DecidableEq

/-- Decoding into `models.RatingInput`: a missing key leaves the zero value, an integer
that does not fit the 64-bit `int` is an error. -/
def decodeRatingInput : RatingBody → Option RatingInput
  | .malformed => none
  | .noRating => some ⟨0⟩
  | .rating v => if -(2 : Int) ^ 63 ≤ v ∧ v < (2 : Int) ^ 63 then some ⟨v⟩ else none

/-- The handler `RateRecipe`; `updateOK` tells whether the `UpdateOne` call, should it be
made, completes without error (a failed call leaves the collection as it was). -/
def RateRecipe (s : State) (id : String) (body : RatingBody) (updateOK : Bool) : Result :=
  match ObjectIDFromHex id with
  | none => respondError s [] 400 "Invalid ID format"
  | some objID =>
    match decodeRatingInput body with
    | none => respondError s [] 400 "Invalid request payload"
    | some input =>
      if input.Rating < 1 ∨ input.Rating > 5 then
        respondError s [] 400 "Rating must be between 1 and 5"
      else if updateOK = false then
        respondError s [.updateOne] 500 "Failed to add rating"
      else
        let result := updateOnePush objID input.Rating s.store
        let s1 : State := { s with store := result.1 }
        if result.2 = 0 then
          respondError s1 [.updateOne] 404 "Recipe not found"
        else
          ⟨⟨200, .message "Rating added successfully"⟩,
            { s1 with cache := s1.cache.Delete id }, [.updateOne, .cacheDelete id]⟩

/-! ## Image normalisation (`processImage`) -/

/-- The bounds of the destination image that `processImage` allocates for a decoded
image of the given width and height (`bounds.Dx()`, `bounds.Dy()`). -/
def scaledBounds (width height : Nat) : Nat × Nat :=
  if width > 800 then
    let  ratio := F64.div (F64.ofInt 800) (F64.ofInt width)
    (800, F64.toInt (F64.mul (F64.ofInt height)  ratio))
  else (width, height)

/-- An uploaded file: its name and, when `image.Decode` succeeds, the bounds of the
decoded image. -/
structure Upload where
  Filename : String
  bounds : Option (Nat × Nat)

/-- The file that `processImage` writes: the returned path and the image bounds. -/
structure Processed where
  path : String
  width : Nat
  height : Nat
  deriving DecidableEq

/-- The size test at the head of `jpeg.Encode`: an image whose width or height is
`1 << 16` or more is refused ("image is too large to encode"). -/
def jpegEncodable (width height : Nat) : Bool := width < 65536 && height < 65536

/-- The function `processImage`. `written` is the path under `uploads` of the file when
`os.Create` succeeds and the encoder can write to it (the time-stamped name is chosen by
the environment) and `none` when either fails; `jpeg.Encode` also fails on its own for
bounds it refuses. -/
def processImage (file : Upload) (written : Option String) : Option Processed :=
  match file.bounds with
  | none => none
  | some (width, height) =>
    match written with
    | none => none
    | some outPath =>
      if jpegEncodable (scaledBounds width height).1 (scaledBounds width height).2 then
        some ⟨"/" ++ outPath, (scaledBounds width height).1, (scaledBounds width height).2⟩
      else none

/-! ## Recipe creation and search -/

/-- Scan of a reversed path for `filepath.Ext`: `acc` is the suffix read so far. -/
def extScan : List Char → List Char → List Char
  | [], _ => []
  | c :: rest, acc =>
    if c = '/' then [] else if c = '.' then '.' :: acc else extScan rest (c :: acc)

/-- Go `filepath.Ext`: the suffix from the last dot of the last path element. -/
def Ext (path : String) : String := ⟨extScan path.data.reverse []⟩

/-- Go `strings.ToLower` on the ASCII letters. No other code point lower-cases to a
letter of the three accepted extensions, so the extension test is not affected. -/
def ToLower (s : String) : String := ⟨s.data.map Char.toLower⟩

/-- The parsed multipart form of a creation request. -/
structure CreateRequest where
  formOK : Bool
  title : String
  description : String
  ingredients : String
  image : Option Upload

/-- What the environment contributes to a creation: the outcome of writing the image,
the clock, and the identifier generated for the insert (`none` when `InsertOne` fails). -/
structure CreateEnv where
  written : Option String
  now : Nat
  insertedID : Option ObjectID

/-- The normalisation applied to a form field: quote trimming, then space trimming. -/
def normalizeField (v : String) : String := TrimSpace (Trim v quoteCutset)

/-- The ingredient loop of `CreateRecipe`. -/
def parseIngredients (ingredientsStr : String) : List String :=
  ((Split ingredientsStr ',').map normalizeField).filter (fun trimmed => trimmed ≠ "")

/-- The call `InsertOne`: it fails when the environment says so or when the generated
`_id` is already taken (unique `_id` index); otherwise the document is appended. -/
def InsertOne (store : List Recipe) (recipe : Recipe) (newID : Option ObjectID) :
    Option (List Recipe × ObjectID) :=
  match newID with
  | none => none
  | some oid =>
    if store.any (fun r => r.ID = oid) then none
    else some (store ++ [{ recipe with ID := oid }], oid)

/-- The handler `CreateRecipe`. -/
def CreateRecipe (s : State) (r : CreateRequest) (env : CreateEnv) : Result :=
  if r.formOK = false then
    respondError s [] 400 "File size exceeds 2MB or invalid multipart form"
  else
    let title := normalizeField r.title
    let description := normalizeField r.description
    let ingredientsStr := normalizeField r.ingredients
    if title = "" ∨ description = "" ∨ ingredientsStr = "" then
      respondError s [] 400 "Missing required fields"
    else
      let ingredients := parseIngredients ingredientsStr
      match r.image with
      | none => respondError s [] 400 "Image file is required"
      | some file =>
        let ext := ToLower (Ext file.Filename)
        if ext ≠ ".jpg" ∧ ext ≠ ".jpeg" ∧ ext ≠ ".png" then
          respondError s [] 400 "Only jpg/png allowed"
        else
          match processImage file env.written with
          | none => respondError s [] 500 "Failed to process image"
          | some img =>
            let recipe : Recipe :=
              { ID := List.replicate 12 0, Title := title, Description := description,
                Ingredients := ingredients, ImagePath := img.path, Ratings := [],
                CreatedAt := env.now }
            match InsertOne s.store recipe env.insertedID with
            | none => respondError s [.insertOne] 500 "Failed to save recipe"
            | some (store1, oid) =>
              ⟨⟨201, .recipe { recipe with ID := oid }⟩, { s with store := store1 },
                [.insertOne]⟩

/-- The term loop of `SearchRecipes`. -/
def parseTerms (ingredientsStr : String) : List String :=
  ((Split ingredientsStr ',').map TrimSpace).filter (fun trimmed => trimmed ≠ "")

/-- The store operator `$all`: every term is an element of the ingredient array. -/
def matchAll (terms : List String) (r : Recipe) : Bool :=
  terms.all (fun t => r.Ingredients.contains t)

/-- The pipeline `$match ingredients $all terms` then `$addFields avg_rating`. -/
def aggregateSearch (store : List Recipe) (terms : List String) : List RecipeDoc :=
  (store.filter (matchAll terms)).map addFields

/-- The handler `SearchRecipes`. A nil slice of terms is encoded as a BSON null, for
which the store refuses `$all`: the `Aggregate` call then fails whatever `o` is. -/
def SearchRecipes (s : State) (ingredientsStr : String) (o : AggOutcome) : Result :=
  if ingredientsStr = "" then
    respondError s [] 400 "Missing ingredients parameter"
  else
    let ingredients := parseTerms ingredientsStr
    match (if ingredients = [] then AggOutcome.aggregateErr else o) with
    | .aggregateErr => respondError s [.aggregate] 500 "Search failed"
    | .cursorErr => respondError s [.aggregate, .cursorAll] 500 "Failed to decode recipes"
    | .ok => ⟨⟨200, .docs (aggregateSearch s.store ingredients)⟩, s, [.aggregate, .cursorAll]⟩

/-! ## Sequential runs -/

/-- One request to one of the three handlers that touch the cache or a single recipe. -/
inductive Op
  | create (r : CreateRequest) (env : CreateEnv)
  | get (id : String) (o : AggOutcome)
  | rate (id : String) (body : RatingBody) (updateOK : Bool)

/-- Handling of one request. -/
def Op.apply (s : State) : Op → Result
  | .create r env => CreateRecipe s r env
  | .get id o => GetRecipeByID s id o
  | .rate id body updateOK => RateRecipe s id body updateOK

/-- The state after a sequential run of requests. -/
def run (s : State) : List Op → State
  | [] => s
  | op :: ops => run (op.apply s).state ops

/-- The states reachable from process start by a sequential run. -/
def Reachable (s : State) : Prop := ∃ ops, run State.init ops = s

/-! ## Predicates of the specification -/

/-- A hexadecimal character: a digit, or a letter from `a` to `f` in either case. -/
def isHexDigit (c : Char) : Bool :=
  let n := c.toNat
  (48 ≤ n && n ≤ 57) || (97 ≤ n && n ≤ 102) || (65 ≤ n && n ≤ 70)

/-- A well-formed object identifier string: exactly 24 hexadecimal characters. -/
def WellFormedID (id : String) : Prop :=
  id.length = 24 ∧ ∀ c ∈ id.data, isHexDigit c = true

/-! ## Concrete scenarios -/

/-- The identifier used in the concrete scenarios, as parsed from
`65f0a1b2c3d4e5f601234567`. -/
def sampleID : ObjectID := [101, 240, 161, 178, 195, 212, 229, 246, 1, 35, 69, 103]

/-- A valid creation request: every field present, a PNG upload that decodes. -/
def sampleCreate (ingredients : String) : CreateRequest :=
  ⟨true, "Soup", "Warm", ingredients, some ⟨"bowl.png", some (640, 480)⟩⟩

/-- An environment in which the image is written and the insert succeeds. -/
def sampleEnv : CreateEnv := ⟨some "uploads/1_bowl.jpg", 1, some sampleID⟩

/-- The recipe stored by `sampleCreate` under `sampleEnv`. -/
def sampleRecipe (ingredients : List String) (ratings : List Int) : Recipe :=
  ⟨sampleID, "Soup", "Warm", ingredients, "/uploads/1_bowl.jpg", ratings, 1⟩

/-- The run of C2: create a recipe, read it under the lower-case spelling of its id, rate
it under the upper-case spelling. -/
def staleRun : List Op :=
  [.create (sampleCreate "salt") sampleEnv,
   .get "65f0a1b2c3d4e5f601234567" .ok,
   .rate "65F0A1B2C3D4E5F601234567" (.rating 5) true]

/-- A request on one fixed id string: a read with the outcome of its store calls, or a
rating `r` whose `UpdateOne` call completes. -/
inductive IdOp
  | get (o : AggOutcome)
  | rate (r : Int)

/-- The request as sent with the id string `id`. -/
def IdOp.toOp (id : String) : IdOp → Op
  | .get o => .get id o
  | .rate r => .rate id (.rating r) true

/-- The ratings sent by a run, in order. -/
def ratingsOf : List IdOp → List Int
  | [] => []
  | .get _ :: ops => ratingsOf ops
  | .rate r :: ops => r :: ratingsOf ops

/-- The status codes answered to the rating requests of a run, in order. -/
def rateStatuses (id : String) : State → List IdOp → List Nat
  | _, [] => []
  | s, .get o :: ops => rateStatuses id (GetRecipeByID s id o).state ops
  | s, .rate r :: ops =>
    (RateRecipe s id (.rating r) true).resp.status ::
      rateStatuses id (RateRecipe s id (.rating r) true).state ops

/-- Every cached key parses to the identifier of a stored recipe. -/
def CacheSound (s : State) : Prop :=
  ∀ k d, s.cache k = some d → ∃ oid, ObjectIDFromHex k = some oid ∧ ∃ r ∈ s.store, r.ID = oid

/-- The collection holds exactly one recipe with the identifier of `base`, it is `base`
with ratings `rs`, and the cache entry under `id`, if there is one, is the current
projection of that recipe. -/
def Tracks (base : Recipe) (id : String) (rs : List Int) (s : State) : Prop :=
  s.store.filter (fun r => r.ID = base.ID) = [{ base with Ratings := rs }] ∧
    (s.cache id = none ∨ s.cache id = some (addFields { base with Ratings := rs }))

/-! # Properties -/

/-! ## Identifier parsing -/

theorem fromHexChar_isSome (c : Char) (x : Nat) (h : fromHexChar c = some x) :
    isHexDigit c = true ∧ c.utf8Size = 1 := by
  unfold fromHexChar at h
  have hs : c.toNat ≤ 102 → c.utf8Size = 1 := by
    intro hc
    have : c.val ≤ 127 := by
      rw [UInt32.le_def]
      show c.val.toNat ≤ 127
      have : c.toNat = c.val.toNat := rfl
      omega
    simp [Char.utf8Size, this]
  simp only [isHexDigit]
  simp only at h
  split_ifs at h with h1 h2 h3
  · exact ⟨by simp [h1], hs (by omega)⟩
  · exact ⟨by simp [h2], hs (by omega)⟩
  · exact ⟨by simp [h3], hs (by omega)⟩

theorem hexDecode_some : ∀ (l : List Char) (r : List Nat), hexDecode l = some r →
    (∀ c ∈ l, isHexDigit c = true) ∧ String.utf8Len l = l.length
  | [], _, _ => by simp
  | [_], _, h => by simp [hexDecode] at h
  | a :: b :: rest, r, h => by
    unfold hexDecode at h
    split at h
    · rename_i x y r1 hx hy hr
      have ha := fromHexChar_isSome a x hx
      have hb := fromHexChar_isSome b y hy
      have ih := hexDecode_some rest r1 hr
      refine ⟨?_, ?_⟩
      · intro c hc
        simp only [List.mem_cons] at hc
        rcases hc with rfl | rfl | hc
        · exact ha.1
        · exact hb.1
        · exact ih.1 c hc
      · simp [String.utf8Len_cons, ha.2, hb.2, ih.2]
    · simp at h

theorem ObjectIDFromHex_wellFormed (id : String) (oid : ObjectID)
    (h : ObjectIDFromHex id = some oid) : WellFormedID id := by
  unfold ObjectIDFromHex at h
  split_ifs at h with hlen
  have hd := hexDecode_some id.data oid h
  refine ⟨?_, hd.1⟩
  have h24 : id.utf8ByteSize = 24 := by simpa using hlen
  have : id.utf8ByteSize = String.utf8Len id.data := rfl
  rw [String.length, ← hd.2, ← this, h24]

theorem ObjectIDFromHex_malformed (id : String) (h : ¬ WellFormedID id) :
    ObjectIDFromHex id = none := by
  cases hid : ObjectIDFromHex id with
  | none => rfl
  | some oid => exact absurd (ObjectIDFromHex_wellFormed id oid hid) h

theorem updateOnePush_matched (objID : ObjectID) (v : Int) (store : List Recipe) :
    (updateOnePush objID v store).2 ≠ 0 ↔ ∃ r ∈ store, r.ID = objID := by
  induction store with
  | nil => simp [updateOnePush]
  | cons r rs ih =>
    unfold updateOnePush
    by_cases h : r.ID = objID
    · simp [h]
    · simp [h, ih]

/-! ## The paths through `GetRecipeByID` and `RateRecipe` -/

theorem GetRecipeByID_badID (s : State) (id : String) (o : AggOutcome)
    (hid : ObjectIDFromHex id = none) :
    GetRecipeByID s id o = respondError s [] 400 "Invalid ID format" := by
  simp [GetRecipeByID, hid]

theorem GetRecipeByID_hit (s : State) (id : String) (o : AggOutcome) (objID : ObjectID)
    (val : RecipeDoc) (hid : ObjectIDFromHex id = some objID) (hc : s.cache id = some val) :
    GetRecipeByID s id o = ⟨⟨200, .doc val⟩, s, [.cacheLoad id]⟩ := by
  simp [GetRecipeByID, hid, hc]

theorem GetRecipeByID_aggregateErr (s : State) (id : String) (objID : ObjectID)
    (hid : ObjectIDFromHex id = some objID) (hc : s.cache id = none) :
    GetRecipeByID s id .aggregateErr =
      respondError s [.cacheLoad id, .aggregate] 500 "Database error" := by
  simp [GetRecipeByID, hid, hc]

theorem GetRecipeByID_cursorErr (s : State) (id : String) (objID : ObjectID)
    (hid : ObjectIDFromHex id = some objID) (hc : s.cache id = none) :
    GetRecipeByID s id .cursorErr =
      respondError s [.cacheLoad id, .aggregate, .cursorAll] 404 "Recipe not found" := by
  simp [GetRecipeByID, hid, hc]

theorem GetRecipeByID_noMatch (s : State) (id : String) (objID : ObjectID)
    (hid : ObjectIDFromHex id = some objID) (hc : s.cache id = none)
    (hagg : aggregateByID s.store objID = []) :
    GetRecipeByID s id .ok =
      respondError s [.cacheLoad id, .aggregate, .cursorAll] 404 "Recipe not found" := by
  simp [GetRecipeByID, hid, hc, hagg]

theorem GetRecipeByID_found (s : State) (id : String) (objID : ObjectID)
    (d : RecipeDoc) (rest : List RecipeDoc)
    (hid : ObjectIDFromHex id = some objID) (hc : s.cache id = none)
    (hagg : aggregateByID s.store objID = d :: rest) :
    GetRecipeByID s id .ok =
      ⟨⟨200, .doc d⟩, { s with cache := s.cache.Store id d },
        [.cacheLoad id, .aggregate, .cursorAll, .cacheStore id]⟩ := by
  simp [GetRecipeByID, hid, hc, hagg]

theorem RateRecipe_badID (s : State) (id : String) (body : RatingBody) (updateOK : Bool)
    (hid : ObjectIDFromHex id = none) :
    RateRecipe s id body updateOK = respondError s [] 400 "Invalid ID format" := by
  simp [RateRecipe, hid]

theorem RateRecipe_badBody (s : State) (id : String) (body : RatingBody) (updateOK : Bool)
    (objID : ObjectID) (hid : ObjectIDFromHex id = some objID)
    (hdec : decodeRatingInput body = none) :
    RateRecipe s id body updateOK = respondError s [] 400 "Invalid request payload" := by
  simp [RateRecipe, hid, hdec]

theorem RateRecipe_outOfRange (s : State) (id : String) (body : RatingBody)
    (updateOK : Bool) (objID : ObjectID) (input : RatingInput)
    (hid : ObjectIDFromHex id = some objID) (hdec : decodeRatingInput body = some input)
    (hr : input.Rating < 1 ∨ input.Rating > 5) :
    RateRecipe s id body updateOK =
      respondError s [] 400 "Rating must be between 1 and 5" := by
  simp [RateRecipe, hid, hdec, hr]

theorem RateRecipe_updateErr (s : State) (id : String) (body : RatingBody)
    (objID : ObjectID) (input : RatingInput)
    (hid : ObjectIDFromHex id = some objID) (hdec : decodeRatingInput body = some input)
    (hr : ¬ (input.Rating < 1 ∨ input.Rating > 5)) :
    RateRecipe s id body false = respondError s [.updateOne] 500 "Failed to add rating" := by
  simp [RateRecipe, hid, hdec, hr]

theorem RateRecipe_noMatch (s : State) (id : String) (body : RatingBody)
    (objID : ObjectID) (input : RatingInput)
    (hid : ObjectIDFromHex id = some objID) (hdec : decodeRatingInput body = some input)
    (hr : ¬ (input.Rating < 1 ∨ input.Rating > 5))
    (hm : (updateOnePush objID input.Rating s.store).2 = 0) :
    RateRecipe s id body true =
      respondError { s with store := (updateOnePush objID input.Rating s.store).1 }
        [.updateOne] 404 "Recipe not found" := by
  simp [RateRecipe, hid, hdec, hr, hm]

theorem RateRecipe_ok (s : State) (id : String) (body : RatingBody)
    (objID : ObjectID) (input : RatingInput)
    (hid : ObjectIDFromHex id = some objID) (hdec : decodeRatingInput body = some input)
    (hr : ¬ (input.Rating < 1 ∨ input.Rating > 5))
    (hm : (updateOnePush objID input.Rating s.store).2 ≠ 0) :
    RateRecipe s id body true =
      ⟨⟨200, .message "Rating added successfully"⟩,
        { store := (updateOnePush objID input.Rating s.store).1,
          cache := s.cache.Delete id }, [.updateOne, .cacheDelete id]⟩ := by
  simp [RateRecipe, hid, hdec, hr, hm]

theorem updateOnePush_noMatch_store (objID : ObjectID) (v : Int) (store : List Recipe)
    (h : (updateOnePush objID v store).2 = 0) : (updateOnePush objID v store).1 = store := by
  induction store with
  | nil => rfl
  | cons r rs ih =>
    unfold updateOnePush at h ⊢
    by_cases hr : r.ID = objID
    · simp [hr] at h
    · simp only [hr, if_false] at h ⊢
      rw [ih h]

/-- C9: the cache changes only on success. (a) `RateRecipe` answers 200 exactly when the id
parses, the rating decodes into [1,5], `UpdateOne` succeeds and a document matches; on 200
the new cache is the old one with the entry of `id` deleted, and on every other status the
cache is unchanged and no `Delete` is issued. (b) `GetRecipeByID` either leaves the cache
unchanged or, on a miss for which the store returned a document, answers 200 and stores
that document under `id`; any status other than 200 (a not-found in particular) leaves
the cache unchanged. In both handlers the entries under every other key are unchanged. -/
theorem cache_changes_only_on_success (s : State) (id : String) (body : RatingBody)
    (updateOK : Bool) (o : AggOutcome) :
    ((RateRecipe s id body updateOK).resp.status = 200 ↔
      ∃ objID input, ObjectIDFromHex id = some objID ∧
        decodeRatingInput body = some input ∧ 1 ≤ input.Rating ∧ input.Rating ≤ 5 ∧
        updateOK = true ∧ ∃ r ∈ s.store, r.ID = objID) ∧
    ((RateRecipe s id body updateOK).resp.status = 200 →
      (RateRecipe s id body updateOK).state.cache = s.cache.Delete id ∧
      Event.cacheDelete id ∈ (RateRecipe s id body updateOK).log) ∧
    ((RateRecipe s id body updateOK).resp.status ≠ 200 →
      (RateRecipe s id body updateOK).state.cache = s.cache ∧
      ∀ k, Event.cacheDelete k ∉ (RateRecipe s id body updateOK).log) ∧
    (∀ k, k ≠ id → (RateRecipe s id body updateOK).state.cache k = s.cache k) ∧
    ((GetRecipeByID s id o).state.cache = s.cache ∨
      ((GetRecipeByID s id o).resp.status = 200 ∧ s.cache id = none ∧ o = .ok ∧
        ∃ objID d rest, ObjectIDFromHex id = some objID ∧
          aggregateByID s.store objID = d :: rest ∧
          (GetRecipeByID s id o).state.cache = s.cache.Store id d)) ∧
    ((GetRecipeByID s id o).resp.status ≠ 200 →
      (GetRecipeByID s id o).state.cache = s.cache) ∧
    (∀ k, k ≠ id → (GetRecipeByID s id o).state.cache k = s.cache k) := by
  have hrate :
      ((RateRecipe s id body updateOK).resp.status = 200 ↔
        ∃ objID input, ObjectIDFromHex id = some objID ∧
          decodeRatingInput body = some input ∧ 1 ≤ input.Rating ∧ input.Rating ≤ 5 ∧
          updateOK = true ∧ ∃ r ∈ s.store, r.ID = objID) ∧
      ((RateRecipe s id body updateOK).resp.status = 200 →
        (RateRecipe s id body updateOK).state.cache = s.cache.Delete id ∧
        Event.cacheDelete id ∈ (RateRecipe s id body updateOK).log) ∧
      ((RateRecipe s id body updateOK).resp.status ≠ 200 →
        (RateRecipe s id body updateOK).state.cache = s.cache ∧
        ∀ k, Event.cacheDelete k ∉ (RateRecipe s id body updateOK).log) ∧
      (∀ k, k ≠ id → (RateRecipe s id body updateOK).state.cache k = s.cache k) := by
    cases hid : ObjectIDFromHex id with
    | none =>
      rw [RateRecipe_badID s id body updateOK hid]
      simp [respondError]
    | some objID =>
      cases hdec : decodeRatingInput body with
      | none =>
        rw [RateRecipe_badBody s id body updateOK objID hid hdec]
        simp [respondError]
      | some input =>
        by_cases hr : input.Rating < 1 ∨ input.Rating > 5
        · rw [RateRecipe_outOfRange s id body updateOK objID input hid hdec hr]
          simp only [respondError]
          refine ⟨⟨fun h => absurd h (by decide), ?_⟩, by simp, by simp, by simp⟩
          rintro ⟨_, input1, _, h2, h3, h4, _⟩
          cases h2; omega
        · cases updateOK with
          | false =>
            rw [RateRecipe_updateErr s id body objID input hid hdec hr]
            simp [respondError]
          | true =>
            have hm := updateOnePush_matched objID input.Rating s.store
            by_cases hz : (updateOnePush objID input.Rating s.store).2 = 0
            · rw [RateRecipe_noMatch s id body objID input hid hdec hr hz]
              have hne : ¬ ∃ r ∈ s.store, r.ID = objID := fun hex => (hm.mpr hex) hz
              simp only [respondError]
              refine ⟨⟨fun h => absurd h (by decide), ?_⟩, by simp, by simp, by simp⟩
              rintro ⟨oid1, _, h1, _, _, _, _, hex⟩
              cases h1; exact absurd hex hne
            · rw [RateRecipe_ok s id body objID input hid hdec hr hz]
              refine ⟨⟨fun _ => ?_, fun _ => rfl⟩, by simp, by simp, ?_⟩
              · exact ⟨objID, input, rfl, rfl, by omega, by omega, rfl, hm.mp hz⟩
              · intro k hk
                simp [Cache.Delete, hk]
  have hget :
      ((GetRecipeByID s id o).state.cache = s.cache ∨
        ((GetRecipeByID s id o).resp.status = 200 ∧ s.cache id = none ∧ o = .ok ∧
          ∃ objID d rest, ObjectIDFromHex id = some objID ∧
            aggregateByID s.store objID = d :: rest ∧
            (GetRecipeByID s id o).state.cache = s.cache.Store id d)) ∧
      ((GetRecipeByID s id o).resp.status ≠ 200 →
        (GetRecipeByID s id o).state.cache = s.cache) ∧
      (∀ k, k ≠ id → (GetRecipeByID s id o).state.cache k = s.cache k) := by
    cases hid : ObjectIDFromHex id with
    | none =>
      rw [GetRecipeByID_badID s id o hid]
      simp [respondError]
    | some objID =>
      cases hc : s.cache id with
      | some val =>
        rw [GetRecipeByID_hit s id o objID val hid hc]
        simp
      | none =>
        cases o with
        | aggregateErr =>
          rw [GetRecipeByID_aggregateErr s id objID hid hc]
          simp [respondError]
        | cursorErr =>
          rw [GetRecipeByID_cursorErr s id objID hid hc]
          simp [respondError]
        | ok =>
          cases hagg : aggregateByID s.store objID with
          | nil =>
            rw [GetRecipeByID_noMatch s id objID hid hc hagg]
            simp [respondError]
          | cons d rest =>
            rw [GetRecipeByID_found s id objID d rest hid hc hagg]
            refine ⟨Or.inr ⟨rfl, rfl, rfl, objID, d, rest, rfl, hagg, rfl⟩, by simp, ?_⟩
            intro k hk
            simp [Cache.Store, hk]
  exact ⟨hrate.1, hrate.2.1, hrate.2.2.1, hrate.2.2.2, hget.1, hget.2.1, hget.2.2⟩


/-- C4: for an id string that is not exactly 24 hexadecimal characters, whatever the body,
the store outcome and the prior state, `GetRecipeByID` and `RateRecipe` both answer 400
"Invalid ID format", make no cache or store call, and leave the state as it was. -/
theorem malformed_id_rejected (s : State) (id : String) (body : RatingBody)
    (updateOK : Bool) (o : AggOutcome) (h : ¬ WellFormedID id) :
    ((GetRecipeByID s id o).resp.status = 400 ∧ (GetRecipeByID s id o).log = [] ∧
      (GetRecipeByID s id o).state = s) ∧
    ((RateRecipe s id body updateOK).resp.status = 400 ∧
      (RateRecipe s id body updateOK).log = [] ∧
      (RateRecipe s id body updateOK).state = s) := by
  have hid := ObjectIDFromHex_malformed id h
  simp [GetRecipeByID, RateRecipe, hid, respondError]

/-- The string `not-an-id` is rejected by both handlers from the initial state. -/
theorem malformed_id_rejected_witness :
    ¬ WellFormedID "not-an-id" ∧
    ((GetRecipeByID State.init "not-an-id" .ok).resp.status = 400 ∧
      (GetRecipeByID State.init "not-an-id" .ok).log = [] ∧
      (GetRecipeByID State.init "not-an-id" .ok).state = State.init) ∧
    ((RateRecipe State.init "not-an-id" (.rating 5) true).resp.status = 400 ∧
      (RateRecipe State.init "not-an-id" (.rating 5) true).log = [] ∧
      (RateRecipe State.init "not-an-id" (.rating 5) true).state = State.init) :=
  have h : ¬ WellFormedID "not-an-id" := fun hw => absurd hw.1 (by decide)
  ⟨h, malformed_id_rejected State.init "not-an-id" (.rating 5) true .ok h⟩

/-- C1: when the body decodes to a rating below 1 or above 5 (an omitted `rating` decodes
to 0), `RateRecipe` answers 400 for every id string and every prior state, makes no store
or cache call (no `UpdateOne`, no `Delete`), and leaves collection and cache as they were. -/
theorem rating_out_of_range_rejected (s : State) (id : String) (body : RatingBody)
    (updateOK : Bool) (v : Int) (hdec : decodeRatingInput body = some ⟨v⟩)
    (hv : v < 1 ∨ v > 5) :
    (RateRecipe s id body updateOK).resp.status = 400 ∧
    (RateRecipe s id body updateOK).state = s ∧
    (RateRecipe s id body updateOK).log = [] := by
  unfold RateRecipe
  cases hid : ObjectIDFromHex id with
  | none => simp [respondError]
  | some objID => simp [hdec, hv, respondError]

/-- A body without a `rating` key sent to a well-formed id is answered 400. -/
theorem rating_out_of_range_rejected_witness :
    decodeRatingInput .noRating = some ⟨0⟩ ∧
    (RateRecipe State.init "65f0a1b2c3d4e5f601234567" .noRating true).resp.status = 400 ∧
    (RateRecipe State.init "65f0a1b2c3d4e5f601234567" .noRating true).state = State.init ∧
    (RateRecipe State.init "65f0a1b2c3d4e5f601234567" .noRating true).log = [] :=
  ⟨rfl, rating_out_of_range_rejected State.init "65f0a1b2c3d4e5f601234567" .noRating true 0
    rfl (Or.inl (by decide))⟩

/-! ## Concrete runs -/

set_option maxRecDepth 100000

/-- C5: a cursor failure is answered 404 by `GetRecipeByID`, although the recipe asked for
is in the collection; the sibling handler `SearchRecipes` answers 500 on the same
failure. -/
theorem cursor_failure_answered_not_found :
    (GetRecipeByID ⟨[sampleRecipe ["salt"] []], fun _ => none⟩
      "65f0a1b2c3d4e5f601234567" .cursorErr).resp = ⟨404, .error "Recipe not found"⟩ ∧
    (SearchRecipes ⟨[sampleRecipe ["salt"] []], fun _ => none⟩ "salt" .cursorErr).resp =
      ⟨500, .error "Failed to decode recipes"⟩ := by
  constructor <;> decide

/-- C6: for the query strings `,` and ` , `, whose terms are all blank, `SearchRecipes`
passes the missing-parameter guard, calls `Aggregate` and answers 500, not 400. -/
theorem blank_terms_reach_the_store (s : State) (o : AggOutcome) :
    parseTerms "," = [] ∧ parseTerms " , " = [] ∧
    (SearchRecipes s "," o).resp.status = 500 ∧ Event.aggregate ∈ (SearchRecipes s "," o).log ∧
    (SearchRecipes s " , " o).resp.status = 500 ∧
    Event.aggregate ∈ (SearchRecipes s " , " o).log := by
  have h1 : parseTerms "," = [] := by decide
  have h2 : parseTerms " , " = [] := by decide
  have e1 : ("," : String) ≠ "" := by decide
  have e2 : (" , " : String) ≠ "" := by decide
  simp [SearchRecipes, h1, h2, e1, e2, respondError]

/-- C8: a form whose `ingredients` field is `,` (or ` , ,`), with title, description and
image valid, is accepted with 201 and a recipe with an empty ingredient list is
persisted and returned. -/
theorem blank_ingredients_accepted :
    (CreateRecipe State.init (sampleCreate ",") sampleEnv).resp =
      ⟨201, .recipe (sampleRecipe [] [])⟩ ∧
    (CreateRecipe State.init (sampleCreate ",") sampleEnv).state.store =
      [sampleRecipe [] []] ∧
    (CreateRecipe State.init (sampleCreate " , ,") sampleEnv).resp =
      ⟨201, .recipe (sampleRecipe [] [])⟩ ∧
    (CreateRecipe State.init (sampleCreate " , ,") sampleEnv).state.store =
      [sampleRecipe [] []] := by
  refine ⟨?_, ?_, ?_, ?_⟩ <;> decide

/-- C2: both spellings parse to the identifier of the created recipe; after the read under
the lower-case spelling, the rating under the upper-case spelling succeeds with 200 and
the store holds ratings `[5]`, yet the next read under the lower-case spelling is served
the cached document with empty ratings and no average. -/
theorem stale_read_after_rating_under_other_spelling :
    ObjectIDFromHex "65f0a1b2c3d4e5f601234567" = some sampleID ∧
    ObjectIDFromHex "65F0A1B2C3D4E5F601234567" = some sampleID ∧
    (RateRecipe (run State.init (staleRun.take 2)) "65F0A1B2C3D4E5F601234567"
      (.rating 5) true).resp.status = 200 ∧
    (run State.init staleRun).store = [sampleRecipe ["salt"] [5]] ∧
    (GetRecipeByID (run State.init staleRun) "65f0a1b2c3d4e5f601234567" .ok).resp =
      ⟨200, .doc ⟨sampleRecipe ["salt"] [], none⟩⟩ := by
  refine ⟨?_, ?_, ?_, ?_, ?_⟩ <;> decide

/-! ## Search -/

theorem matchAll_iff (terms : List String) (r : Recipe) :
    matchAll terms r = true ↔ ∀ t ∈ terms, t ∈ r.Ingredients := by
  simp [matchAll, List.all_eq_true]

theorem matchAll_congr (terms1 terms2 : List String)
    (h : ∀ t, t ∈ terms1 ↔ t ∈ terms2) (r : Recipe) :
    matchAll terms1 r = matchAll terms2 r := by
  rw [Bool.eq_iff_iff, matchAll_iff, matchAll_iff]
  constructor
  · intro h1 t ht; exact h1 t ((h t).mpr ht)
  · intro h1 t ht; exact h1 t ((h t).mp ht)

theorem parseTerms_empty : parseTerms "" = [] := by decide

theorem SearchRecipes_ok (s : State) (q : String) (h : parseTerms q ≠ []) :
    SearchRecipes s q .ok =
      ⟨⟨200, .docs (aggregateSearch s.store (parseTerms q))⟩, s,
        [.aggregate, .cursorAll]⟩ := by
  have hq : q ≠ "" := by
    intro hq
    rw [hq] at h
    exact h parseTerms_empty
  simp [SearchRecipes, hq, h]

/-- C7: for a query with at least one non-blank term, when the store calls succeed,
`SearchRecipes` answers 200 with the stored recipes (in store order, each with its derived
average) whose ingredient list contains every term of the query, and leaves the state
unchanged. A stored recipe is in the result exactly when it contains every term, so extra
ingredients do not matter and a recipe lacking one term is excluded; a second query with
the same set of terms, in any order and with any repetition, gets the same response. -/
theorem search_returns_supersets (s : State) (q : String) (h : parseTerms q ≠ []) :
    (SearchRecipes s q .ok).resp =
      ⟨200, .docs ((s.store.filter
        (fun r => decide (∀ t ∈ parseTerms q, t ∈ r.Ingredients))).map addFields)⟩ ∧
    (SearchRecipes s q .ok).state = s ∧
    (∀ r ∈ s.store,
      addFields r ∈ (s.store.filter
          (fun r => decide (∀ t ∈ parseTerms q, t ∈ r.Ingredients))).map addFields ↔
        ∀ t ∈ parseTerms q, t ∈ r.Ingredients) ∧
    (∀ q2, (∀ t, t ∈ parseTerms q2 ↔ t ∈ parseTerms q) →
      (SearchRecipes s q2 .ok).resp = (SearchRecipes s q .ok).resp) := by
  have hfilter : aggregateSearch s.store (parseTerms q) =
      (s.store.filter (fun r => decide (∀ t ∈ parseTerms q, t ∈ r.Ingredients))).map
        addFields := by
    unfold aggregateSearch
    congr 1
    apply List.filter_congr
    intro r _
    rw [Bool.eq_iff_iff, matchAll_iff]
    simp
  have hinj : ∀ a b : Recipe, addFields a = addFields b → a = b := by
    intro a b hab
    have := congrArg RecipeDoc.recipe hab
    simpa [addFields] using this
  rw [SearchRecipes_ok s q h]
  refine ⟨by rw [hfilter], rfl, ?_, ?_⟩
  · intro r hr
    rw [← hfilter]
    unfold aggregateSearch
    rw [List.mem_map]
    constructor
    · rintro ⟨r1, hr1, heq⟩
      rw [← hinj r1 r heq]
      exact (matchAll_iff _ _).mp (List.mem_filter.mp hr1).2
    · intro hall
      exact ⟨r, List.mem_filter.mpr ⟨hr, (matchAll_iff _ _).mpr hall⟩, rfl⟩
  · intro q2 hq2
    have h2 : parseTerms q2 ≠ [] := by
      intro hnil
      cases hp : parseTerms q with
      | nil => exact h hp
      | cons t ts =>
        have : t ∈ parseTerms q2 := (hq2 t).mpr (by rw [hp]; exact List.mem_cons_self t ts)
        rw [hnil] at this
        exact absurd this (List.not_mem_nil t)
    rw [SearchRecipes_ok s q2 h2]
    have : aggregateSearch s.store (parseTerms q2) = aggregateSearch s.store (parseTerms q) := by
      unfold aggregateSearch
      congr 1
      apply List.filter_congr
      intro r _
      exact matchAll_congr _ _ hq2 r
    rw [this]

/-- The query `salt, egg` returns the recipe with egg, milk and salt and not the one with
salt alone. -/
theorem search_returns_supersets_witness :
    parseTerms "salt, egg" ≠ [] ∧
    (SearchRecipes ⟨[sampleRecipe ["egg", "milk", "salt"] [4], sampleRecipe ["salt"] []],
        fun _ => none⟩ "salt, egg" .ok).resp =
      ⟨200, .docs [addFields (sampleRecipe ["egg", "milk", "salt"] [4])]⟩ :=
  ⟨by decide,
    (search_returns_supersets
      ⟨[sampleRecipe ["egg", "milk", "salt"] [4], sampleRecipe ["salt"] []], fun _ => none⟩
      "salt, egg" (by decide)).1.trans
      (congrArg (fun l => (⟨200, .docs (l.map addFields)⟩ : Response))
        (by decide : ([sampleRecipe ["egg", "milk", "salt"] [4], sampleRecipe ["salt"] []].filter
            (fun r => decide (∀ t ∈ parseTerms "salt, egg", t ∈ r.Ingredients))) =
          [sampleRecipe ["egg", "milk", "salt"] [4]]))⟩

/-! ## Recipe creation -/

theorem InsertOne_some (store : List Recipe) (recipe : Recipe) (newID : Option ObjectID)
    (store1 : List Recipe) (oid : ObjectID)
    (h : InsertOne store recipe newID = some (store1, oid)) :
    newID = some oid ∧ (∀ x ∈ store, x.ID ≠ oid) ∧
      store1 = store ++ [{ recipe with ID := oid }] := by
  unfold InsertOne at h
  cases newID with
  | none => simp at h
  | some oid1 =>
    simp only at h
    split_ifs at h with hany
    simp only [Option.some.injEq, Prod.mk.injEq] at h
    obtain ⟨h1, h2⟩ := h
    subst h2
    refine ⟨rfl, ?_, h1.symm⟩
    intro x hx hxe
    apply hany
    simp only [List.any_eq_true, decide_eq_true_eq]
    exact ⟨x, hx, hxe⟩

theorem CreateRecipe_cache (s : State) (r : CreateRequest) (env : CreateEnv) :
    (CreateRecipe s r env).state.cache = s.cache := by
  unfold CreateRecipe
  simp only [respondError]
  repeat' split
  all_goals rfl

theorem CreateRecipe_store (s : State) (r : CreateRequest) (env : CreateEnv) :
    ∃ l, (CreateRecipe s r env).state.store = s.store ++ l := by
  unfold CreateRecipe
  simp only [respondError]
  repeat' split
  all_goals first
    | exact ⟨[], (List.append_nil _).symm⟩
    | (rename_i h; exact ⟨_, (InsertOne_some _ _ _ _ _ h).2.2⟩)

theorem CreateRecipe_created (s : State) (r : CreateRequest) (env : CreateEnv)
    (created : Recipe) (h : (CreateRecipe s r env).resp = ⟨201, .recipe created⟩) :
    env.insertedID = some created.ID ∧ (∀ x ∈ s.store, x.ID ≠ created.ID) ∧
      created.Ratings = [] ∧
      created.Ingredients = parseIngredients (normalizeField r.ingredients) ∧
      (CreateRecipe s r env).state = ⟨s.store ++ [created], s.cache⟩ := by
  unfold CreateRecipe at h ⊢
  simp only [respondError] at h ⊢
  repeat' split at h
  all_goals try (simp at h; done)
  rename_i hform hfields _ file himg hext _ img hproc _ store1 oid hins
  have hi := InsertOne_some _ _ _ _ _ hins
  simp only [Response.mk.injEq, Payload.recipe.injEq, true_and] at h
  subst h
  rw [if_neg hform, if_neg hfields, if_neg hext]
  exact ⟨hi.1, hi.2.1, rfl, rfl, by rw [hi.2.2]⟩

/-! ## Invariants of sequential runs -/

theorem updateOnePush_ids (objID : ObjectID) (v : Int) (store : List Recipe) :
    (updateOnePush objID v store).1.map Recipe.ID = store.map Recipe.ID := by
  induction store with
  | nil => rfl
  | cons r rs ih =>
    unfold updateOnePush
    by_cases h : r.ID = objID
    · simp [h]
    · simp [h, ih]

theorem updateOnePush_filter (objID : ObjectID) (v : Int) (store : List Recipe)
    (rcp : Recipe) (h : store.filter (fun r => r.ID = objID) = [rcp]) :
    (updateOnePush objID v store).1.filter (fun r => r.ID = objID) =
        [{ rcp with Ratings := rcp.Ratings ++ [v] }] ∧
      (updateOnePush objID v store).2 ≠ 0 := by
  induction store with
  | nil => simp at h
  | cons r rs ih =>
    unfold updateOnePush
    by_cases hr : r.ID = objID
    · simp only [hr, decide_True, List.filter_cons_of_pos, List.cons.injEq] at h
      obtain ⟨h1, h2⟩ := h
      subst h1
      simp [hr, h2]
    · simp only [hr, decide_False, Bool.false_eq_true, not_false_eq_true,
        List.filter_cons_of_neg] at h
      have := ih h
      simp [hr, this.1, this.2]

theorem GetRecipeByID_state (s : State) (id : String) (o : AggOutcome) :
    (GetRecipeByID s id o).state = s ∨
      ∃ objID d rest, ObjectIDFromHex id = some objID ∧ s.cache id = none ∧
        aggregateByID s.store objID = d :: rest ∧
        (GetRecipeByID s id o).state = ⟨s.store, s.cache.Store id d⟩ := by
  cases hid : ObjectIDFromHex id with
  | none => rw [GetRecipeByID_badID s id o hid]; exact Or.inl rfl
  | some objID =>
    cases hc : s.cache id with
    | some val => rw [GetRecipeByID_hit s id o objID val hid hc]; exact Or.inl rfl
    | none =>
      cases o with
      | aggregateErr => rw [GetRecipeByID_aggregateErr s id objID hid hc]; exact Or.inl rfl
      | cursorErr => rw [GetRecipeByID_cursorErr s id objID hid hc]; exact Or.inl rfl
      | ok =>
        cases hagg : aggregateByID s.store objID with
        | nil => rw [GetRecipeByID_noMatch s id objID hid hc hagg]; exact Or.inl rfl
        | cons d rest =>
          rw [GetRecipeByID_found s id objID d rest hid hc hagg]
          exact Or.inr ⟨objID, d, rest, rfl, rfl, hagg, rfl⟩

theorem RateRecipe_state (s : State) (id : String) (body : RatingBody) (updateOK : Bool) :
    (RateRecipe s id body updateOK).state = s ∨
      ∃ objID v, ObjectIDFromHex id = some objID ∧
        (RateRecipe s id body updateOK).state =
          ⟨(updateOnePush objID v s.store).1, s.cache.Delete id⟩ := by
  cases hid : ObjectIDFromHex id with
  | none => rw [RateRecipe_badID s id body updateOK hid]; exact Or.inl rfl
  | some objID =>
    cases hdec : decodeRatingInput body with
    | none => rw [RateRecipe_badBody s id body updateOK objID hid hdec]; exact Or.inl rfl
    | some input =>
      by_cases hr : input.Rating < 1 ∨ input.Rating > 5
      · rw [RateRecipe_outOfRange s id body updateOK objID input hid hdec hr]
        exact Or.inl rfl
      · cases updateOK with
        | false => rw [RateRecipe_updateErr s id body objID input hid hdec hr]; exact Or.inl rfl
        | true =>
          by_cases hz : (updateOnePush objID input.Rating s.store).2 = 0
          · rw [RateRecipe_noMatch s id body objID input hid hdec hr hz]
            left
            simp only [respondError]
            rw [updateOnePush_noMatch_store objID input.Rating s.store hz]
          · rw [RateRecipe_ok s id body objID input hid hdec hr hz]
            exact Or.inr ⟨objID, input.Rating, rfl, rfl⟩

theorem CacheSound_step (s : State) (op : Op) (h : CacheSound s) :
    CacheSound (op.apply s).state := by
  cases op with
  | create r env =>
    intro k d hk
    simp only [Op.apply] at hk ⊢
    rw [CreateRecipe_cache] at hk
    obtain ⟨oid, h1, x, hx, hxo⟩ := h k d hk
    obtain ⟨l, hl⟩ := CreateRecipe_store s r env
    exact ⟨oid, h1, x, by rw [hl]; exact List.mem_append_left l hx, hxo⟩
  | get id o =>
    simp only [Op.apply]
    rcases GetRecipeByID_state s id o with hs | ⟨objID, d, rest, hid, _, hagg, hs⟩
    · rw [hs]; exact h
    · rw [hs]
      intro k d1 hk
      by_cases hkid : k = id
      · subst hkid
        refine ⟨objID, hid, ?_⟩
        have hmem : d ∈ aggregateByID s.store objID := by rw [hagg]; exact List.mem_cons_self _ _
        unfold aggregateByID at hmem
        obtain ⟨x, hx, _⟩ := List.mem_map.mp hmem
        have hx2 := List.mem_filter.mp hx
        exact ⟨x, hx2.1, by simpa using hx2.2⟩
      · have : s.cache k = some d1 := by simpa [Cache.Store, hkid] using hk
        exact h k d1 this
  | rate id body updateOK =>
    simp only [Op.apply]
    rcases RateRecipe_state s id body updateOK with hs | ⟨objID, v, _, hs⟩
    · rw [hs]; exact h
    · rw [hs]
      intro k d1 hk
      have hk1 : s.cache k = some d1 := by
        by_cases hkid : k = id
        · simp [Cache.Delete, hkid] at hk
        · simpa [Cache.Delete, hkid] using hk
      obtain ⟨oid, h1, x, hx, hxo⟩ := h k d1 hk1
      refine ⟨oid, h1, ?_⟩
      have hmem : oid ∈ s.store.map Recipe.ID := List.mem_map.mpr ⟨x, hx, hxo⟩
      rw [← updateOnePush_ids objID v s.store] at hmem
      obtain ⟨y, hy, hyo⟩ := List.mem_map.mp hmem
      exact ⟨y, hy, hyo⟩

theorem CacheSound_run (ops : List Op) : ∀ s, CacheSound s → CacheSound (run s ops) := by
  induction ops with
  | nil => intro s h; exact h
  | cons op ops ih => intro s h; exact ih _ (CacheSound_step s op h)

theorem Reachable_cacheSound (s : State) (h : Reachable s) : CacheSound s := by
  obtain ⟨ops, rfl⟩ := h
  apply CacheSound_run
  intro k d hk
  simp [State.init] at hk

theorem decodeRatingInput_valid (r : Int) (h : 1 ≤ r ∧ r ≤ 5) :
    decodeRatingInput (.rating r) = some ⟨r⟩ := by
  have h1 : -(2 : Int) ^ 63 ≤ r := by norm_num; omega
  have h2 : r < (2 : Int) ^ 63 := by norm_num; omega
  show (if -(2 : Int) ^ 63 ≤ r ∧ r < (2 : Int) ^ 63 then some (⟨r⟩ : RatingInput) else none) =
    some ⟨r⟩
  rw [if_pos ⟨h1, h2⟩]

theorem Tracks_get (base : Recipe) (id : String)
    (hid : ObjectIDFromHex id = some base.ID)
    (rs : List Int) (s : State) (o : AggOutcome) (h : Tracks base id rs s) :
    Tracks base id rs (GetRecipeByID s id o).state := by
  obtain ⟨hf, hc⟩ := h
  rcases GetRecipeByID_state s id o with hs | ⟨objID, d, rest, hid1, _, hagg, hs⟩
  · rw [hs]; exact ⟨hf, hc⟩
  · rw [hs]
    rw [hid] at hid1
    cases hid1
    have hd : d = addFields { base with Ratings := rs } := by
      unfold aggregateByID at hagg
      rw [hf] at hagg
      simp only [List.map_cons, List.map_nil, List.cons.injEq] at hagg
      exact hagg.1.symm
    exact ⟨hf, Or.inr (by simp [Cache.Store, hd])⟩

theorem Tracks_rate (base : Recipe) (id : String)
    (hid : ObjectIDFromHex id = some base.ID)
    (rs : List Int) (s : State) (r : Int) (hr : 1 ≤ r ∧ r ≤ 5) (h : Tracks base id rs s) :
    (RateRecipe s id (.rating r) true).resp.status = 200 ∧
      Tracks base id (rs ++ [r]) (RateRecipe s id (.rating r) true).state := by
  obtain ⟨hf, _⟩ := h
  have hu := updateOnePush_filter base.ID r s.store _ hf
  have hrange : ¬ ((⟨r⟩ : RatingInput).Rating < 1 ∨ (⟨r⟩ : RatingInput).Rating > 5) := by
    simp only [not_or, not_lt, gt_iff_lt]
    exact hr
  rw [RateRecipe_ok s id (.rating r) base.ID ⟨r⟩ hid (decodeRatingInput_valid r hr) hrange
    hu.2]
  refine ⟨rfl, hu.1, Or.inl ?_⟩
  simp [Cache.Delete]

theorem Tracks_run (base : Recipe) (id : String)
    (hid : ObjectIDFromHex id = some base.ID)
    (ops : List IdOp) : ∀ (s : State) (rs : List Int), Tracks base id rs s →
      (∀ r, IdOp.rate r ∈ ops → 1 ≤ r ∧ r ≤ 5) →
      Tracks base id (rs ++ ratingsOf ops) (run s (ops.map (IdOp.toOp id))) ∧
        rateStatuses id s ops = List.replicate (ratingsOf ops).length 200 := by
  induction ops with
  | nil =>
    intro s rs h _
    simpa [ratingsOf, run, rateStatuses] using h
  | cons op ops ih =>
    intro s rs h hv
    have hv1 : ∀ r, IdOp.rate r ∈ ops → 1 ≤ r ∧ r ≤ 5 :=
      fun r hr => hv r (List.mem_cons_of_mem _ hr)
    cases op with
    | get o =>
      have := ih (GetRecipeByID s id o).state rs (Tracks_get base id hid rs s o h) hv1
      simpa [ratingsOf, run, rateStatuses, IdOp.toOp, Op.apply] using this
    | rate r =>
      have hr := hv r (List.mem_cons_self _ _)
      have hstep := Tracks_rate base id hid rs s r hr h
      have := ih (RateRecipe s id (.rating r) true).state (rs ++ [r]) hstep.2 hv1
      simp only [ratingsOf, List.map_cons, IdOp.toOp, run, Op.apply, rateStatuses,
        List.length_cons, List.replicate_succ, hstep.1]
      rw [List.append_assoc] at this
      exact ⟨this.1, by rw [this.2]⟩

theorem Tracks_created (s0 : State) (req : CreateRequest) (env : CreateEnv)
    (created : Recipe) (id : String) (hs0 : Reachable s0)
    (hcreate : (CreateRecipe s0 req env).resp = ⟨201, .recipe created⟩)
    (hid : ObjectIDFromHex id = some created.ID) :
    Tracks created id [] (CreateRecipe s0 req env).state := by
  obtain ⟨_, hfresh, hrat, _, hst⟩ := CreateRecipe_created s0 req env created hcreate
  have hbase : ({ created with Ratings := [] } : Recipe) = created := by
    cases created
    simp only at hrat
    subst hrat
    rfl
  rw [hst]
  refine ⟨?_, Or.inl ?_⟩
  · rw [hbase]
    simp only [List.filter_append]
    have hnone : s0.store.filter (fun r => decide (r.ID = created.ID)) = [] := by
      rw [List.filter_eq_nil_iff]
      intro x hx
      simpa using hfresh x hx
    simp [hnone]
  · cases hc : s0.cache id with
    | none => rfl
    | some d =>
      obtain ⟨oid, h1, x, hx, hxo⟩ := Reachable_cacheSound s0 hs0 id d hc
      rw [hid] at h1
      cases h1
      exact absurd hxo (hfresh x hx)

/-! ## The `float64` model -/

theorem log2Fuel_spec : ∀ (fuel n : Nat), n ≤ fuel → 0 < n →
    2 ^ log2Fuel fuel n ≤ n ∧ n < 2 ^ (log2Fuel fuel n + 1)
  | 0, n, h, hp => by omega
  | fuel + 1, n, h, hp => by
    unfold log2Fuel
    split_ifs with h2
    · simp only [pow_zero, zero_add, pow_one]
      omega
    · have ih := log2Fuel_spec fuel (n / 2) (by omega) (by omega)
      rw [pow_succ, pow_succ]
      rw [pow_succ] at ih
      omega

theorem ilog2_spec (n : Nat) (hp : 0 < n) : 2 ^ ilog2 n ≤ n ∧ n < 2 ^ (ilog2 n + 1) :=
  log2Fuel_spec n n (Nat.le_refl n) hp

theorem scaleDn_pos (p q : Nat) : 0 < scaleDn p q := by
  unfold scaleDn
  positivity

theorem scaleUp_pow (p q : Nat) : ∃ k, scaleUp p q = 2 ^ k := by
  unfold scaleUp
  simp only
  split_ifs
  · exact ⟨ilog2 q + 52 - ilog2 p + 1, by rw [pow_succ]; ring⟩
  · exact ⟨_, rfl⟩

theorem scaleUp_pos (p q : Nat) : 0 < scaleUp p q := by
  obtain ⟨k, hk⟩ := scaleUp_pow p q
  rw [hk]
  positivity

theorem scale_ge (p q : Nat) (hp : 0 < p) (hq : 0 < q) :
    2 ^ 52 * (q * scaleDn p q) ≤ p * scaleUp p q := by
  have ha := ilog2_spec p hp
  have hb := ilog2_spec q hq
  have key : 2 ^ 52 * (q * scaleDn p q) < 2 * (p * 2 ^ (ilog2 q + 52 - ilog2 p)) := by
    unfold scaleDn
    have h1 : 2 ^ 52 * (q * 2 ^ (ilog2 p - (ilog2 q + 52))) <
        2 ^ 52 * (2 ^ (ilog2 q + 1) * 2 ^ (ilog2 p - (ilog2 q + 52))) := by
      apply Nat.mul_lt_mul_of_pos_left _ (by positivity)
      exact Nat.mul_lt_mul_of_pos_right hb.2 (by positivity)
    have h2 : 2 * (2 ^ ilog2 p * 2 ^ (ilog2 q + 52 - ilog2 p)) ≤
        2 * (p * 2 ^ (ilog2 q + 52 - ilog2 p)) := by
      apply Nat.mul_le_mul_left
      exact Nat.mul_le_mul_right _ ha.1
    have h3 : 2 ^ 52 * (2 ^ (ilog2 q + 1) * 2 ^ (ilog2 p - (ilog2 q + 52))) =
        2 * (2 ^ ilog2 p * 2 ^ (ilog2 q + 52 - ilog2 p)) := by
      rw [← pow_add, ← pow_add, ← pow_add, ← pow_succ']
      congr 1
      omega
    omega
  unfold scaleUp
  simp only
  split_ifs with hlt
  · have : p * (2 * 2 ^ (ilog2 q + 52 - ilog2 p)) = 2 * (p * 2 ^ (ilog2 q + 52 - ilog2 p)) := by
      ring
    omega
  · have hQ : 0 < q * scaleDn p q := Nat.mul_pos hq (scaleDn_pos p q)
    have := (Nat.le_div_iff_mul_le hQ).mp (Nat.le_of_not_lt hlt)
    exact this

theorem roundHalfEven_near (P Q : Nat) (hQ : 0 < Q) :
    2 * (roundHalfEven P Q * Q) ≤ 2 * P + Q ∧ 2 * P ≤ 2 * (roundHalfEven P Q * Q) + Q := by
  have hdm := Nat.div_add_mod P Q
  have hlt := Nat.mod_lt P hQ
  have hc : P / Q * Q = Q * (P / Q) := Nat.mul_comm _ _
  unfold roundHalfEven
  simp only
  split_ifs with h1 h2
  · rw [hc]; omega
  · rw [Nat.add_mul, hc]; omega
  · rcases Nat.mod_two_eq_zero_or_one (P / Q) with h0 | h0
    · rw [h0, Nat.add_zero, hc]; omega
    · rw [h0, Nat.add_mul, hc]; omega

theorem roundHalfEven_exact (P Q : Nat) (hQ : 0 < Q) (hd : Q ∣ P) :
    roundHalfEven P Q * Q = P := by
  have hmod : P % Q = 0 := Nat.mod_eq_zero_of_dvd hd
  unfold roundHalfEven
  simp only [hmod, Nat.mul_zero, hQ, if_true]
  exact Nat.div_mul_cancel hd

theorem F64.round_bounds (p q : Nat) (hp : 0 < p) (hq : 0 < q) :
    ((p : ℚ) / (q : ℚ)) * (1 - 1 / 2 ^ 53) ≤ (F64.round p q).toRat ∧
    (F64.round p q).toRat ≤ ((p : ℚ) / (q : ℚ)) * (1 + 1 / 2 ^ 53) ∧
    0 < (F64.round p q).num ∧ 0 < (F64.round p q).den := by
  have hU := scaleUp_pos p q
  have hD := scaleDn_pos p q
  have hQ : 0 < q * scaleDn p q := Nat.mul_pos hq hD
  have hge := scale_ge p q hp hq
  have hnear := roundHalfEven_near (p * scaleUp p q) (q * scaleDn p q) hQ
  have hm : 0 < roundHalfEven (p * scaleUp p q) (q * scaleDn p q) := by
    rcases Nat.eq_zero_or_pos (roundHalfEven (p * scaleUp p q) (q * scaleDn p q)) with h0 | h0
    · rw [h0] at hnear
      omega
    · exact h0
  unfold F64.round F64.toRat
  rw [if_neg (by omega)]
  simp only
  have hqQ : (0 : ℚ) < (q : ℚ) := by exact_mod_cast hq
  have hUQ : (0 : ℚ) < (scaleUp p q : ℚ) := by exact_mod_cast hU
  have hgeQ : (2 : ℚ) ^ 52 * ((q : ℚ) * (scaleDn p q : ℚ)) ≤ (p : ℚ) * (scaleUp p q : ℚ) := by
    exact_mod_cast hge
  have hn1 : (2 : ℚ) * ((roundHalfEven (p * scaleUp p q) (q * scaleDn p q) : ℚ) *
      ((q : ℚ) * (scaleDn p q : ℚ))) ≤ 2 * ((p : ℚ) * (scaleUp p q : ℚ)) +
      (q : ℚ) * (scaleDn p q : ℚ) := by
    exact_mod_cast hnear.1
  have hn2 : (2 : ℚ) * ((p : ℚ) * (scaleUp p q : ℚ)) ≤
      2 * ((roundHalfEven (p * scaleUp p q) (q * scaleDn p q) : ℚ) *
      ((q : ℚ) * (scaleDn p q : ℚ))) + (q : ℚ) * (scaleDn p q : ℚ) := by
    exact_mod_cast hnear.2
  refine ⟨?_, ?_, Nat.mul_pos hm hD, hU⟩
  · rw [div_mul_eq_mul_div, div_le_div_iff₀ hqQ hUQ]
    push_cast
    norm_num at hgeQ ⊢
    nlinarith
  · rw [div_mul_eq_mul_div, div_le_div_iff₀ hUQ hqQ]
    push_cast
    norm_num at hgeQ ⊢
    nlinarith

theorem F64.round_exact (p q N t : Nat) (hp : 0 < p) (hq : 0 < q)
    (hN : N < 2 ^ 53) (heq : p * 2 ^ t = N * q) :
    (F64.round p q).toRat = (p : ℚ) / (q : ℚ) := by
  have hU := scaleUp_pos p q
  have hD := scaleDn_pos p q
  have hQ : 0 < q * scaleDn p q := Nat.mul_pos hq hD
  have hge := scale_ge p q hp hq
  obtain ⟨k, hk⟩ := scaleUp_pow p q
  have hDdef : scaleDn p q = 2 ^ (ilog2 p - (ilog2 q + 52)) := rfl
  generalize hd : ilog2 p - (ilog2 q + 52) = d at hDdef
  -- the scaled quotient is an integer
  have hlt : 2 ^ (52 + d + t) < 2 ^ (53 + k) := by
    have h1 : 2 ^ (52 + d + t) * q ≤ N * q * 2 ^ k := by
      calc 2 ^ (52 + d + t) * q = 2 ^ 52 * (q * 2 ^ d) * 2 ^ t := by
            rw [pow_add, pow_add]; ring
        _ ≤ p * 2 ^ k * 2 ^ t := by
            rw [hDdef, hk] at hge
            exact Nat.mul_le_mul_right _ hge
        _ = N * q * 2 ^ k := by rw [← heq]; ring
    have h2 : N * q * 2 ^ k < 2 ^ 53 * q * 2 ^ k := by
      apply Nat.mul_lt_mul_of_pos_right _ (by positivity)
      exact Nat.mul_lt_mul_of_pos_right hN hq
    have h3 : 2 ^ (52 + d + t) * q < 2 ^ (53 + k) * q := by
      calc 2 ^ (52 + d + t) * q ≤ N * q * 2 ^ k := h1
        _ < 2 ^ 53 * q * 2 ^ k := h2
        _ = 2 ^ (53 + k) * q := by rw [pow_add]; ring
    exact Nat.lt_of_mul_lt_mul_right h3
  have hexp : d + t ≤ k := by
    have := (Nat.pow_lt_pow_iff_right (by norm_num : 1 < 2)).mp hlt
    omega
  have hdvd : q * scaleDn p q ∣ p * scaleUp p q := by
    refine ⟨N * 2 ^ (k - (d + t)), ?_⟩
    rw [hDdef, hk]
    have hsplit : 2 ^ k = 2 ^ t * 2 ^ d * 2 ^ (k - (d + t)) := by
      rw [← pow_add, ← pow_add]
      congr 1
      omega
    calc p * 2 ^ k = p * 2 ^ t * (2 ^ d * 2 ^ (k - (d + t))) := by rw [hsplit]; ring
      _ = N * q * (2 ^ d * 2 ^ (k - (d + t))) := by rw [heq]
      _ = q * 2 ^ d * (N * 2 ^ (k - (d + t))) := by ring
  have hex := roundHalfEven_exact _ _ hQ hdvd
  unfold F64.round F64.toRat
  rw [if_neg (by omega)]
  simp only
  have hqQ : (q : ℚ) ≠ 0 := by exact_mod_cast (Nat.pos_iff_ne_zero.mp hq)
  have hUQ : (scaleUp p q : ℚ) ≠ 0 := by exact_mod_cast (Nat.pos_iff_ne_zero.mp hU)
  have hexQ : (roundHalfEven (p * scaleUp p q) (q * scaleDn p q) : ℚ) *
      ((q : ℚ) * (scaleDn p q : ℚ)) = (p : ℚ) * (scaleUp p q : ℚ) := by
    exact_mod_cast hex
  rw [div_eq_div_iff hUQ hqQ]
  push_cast
  linear_combination hexQ

theorem F64.round_den_pos (p q : Nat) : 0 < (F64.round p q).den := by
  unfold F64.round
  split_ifs
  · exact Nat.one_pos
  · exact scaleUp_pos p q

theorem F64.ofInt_exact (n : Nat) (h : n < 2 ^ 53) :
    (F64.ofInt n).toRat = (n : ℚ) ∧ 0 < (F64.ofInt n).den ∧
      (0 < n → 0 < (F64.ofInt n).num) := by
  refine ⟨?_, F64.round_den_pos n 1, fun hn => (F64.round_bounds n 1 hn Nat.one_pos).2.2.1⟩
  rcases Nat.eq_zero_or_pos n with h0 | h0
  · subst h0
    simp [F64.ofInt, F64.round, F64.toRat]
  · have := F64.round_exact n 1 n 0 h0 Nat.one_pos h (by simp)
    simpa [F64.ofInt] using this

theorem F64.toRat_eq (x : F64) (hd : 0 < x.den) (v : Nat) (h : x.toRat = (v : ℚ)) :
    x.num = v * x.den := by
  unfold F64.toRat at h
  have hdQ : (x.den : ℚ) ≠ 0 := by exact_mod_cast (Nat.pos_iff_ne_zero.mp hd)
  rw [div_eq_iff hdQ] at h
  exact_mod_cast h

theorem F64.div_bounds (x y : F64) (a b : Nat) (hx : x.toRat = (a : ℚ))
    (hy : y.toRat = (b : ℚ)) (ha : 0 < a) (hb : 0 < b) (hxd : 0 < x.den) (hyd : 0 < y.den) :
    ((a : ℚ) / (b : ℚ)) * (1 - 1 / 2 ^ 53) ≤ (F64.div x y).toRat ∧
    (F64.div x y).toRat ≤ ((a : ℚ) / (b : ℚ)) * (1 + 1 / 2 ^ 53) ∧
    0 < (F64.div x y).num ∧ 0 < (F64.div x y).den := by
  have hxn := F64.toRat_eq x hxd a hx
  have hyn := F64.toRat_eq y hyd b hy
  have hp : 0 < x.num * y.den := by
    rw [hxn]; exact Nat.mul_pos (Nat.mul_pos ha hxd) hyd
  have hq : 0 < x.den * y.num := by
    rw [hyn]; exact Nat.mul_pos hxd (Nat.mul_pos hb hyd)
  have hb := F64.round_bounds (x.num * y.den) (x.den * y.num) hp hq
  have hval : ((x.num * y.den : Nat) : ℚ) / ((x.den * y.num : Nat) : ℚ) = (a : ℚ) / (b : ℚ) := by
    have hxdQ : (x.den : ℚ) ≠ 0 := by exact_mod_cast (Nat.pos_iff_ne_zero.mp hxd)
    have hydQ : (y.den : ℚ) ≠ 0 := by exact_mod_cast (Nat.pos_iff_ne_zero.mp hyd)
    have hbQ : (b : ℚ) ≠ 0 := by exact_mod_cast (Nat.pos_iff_ne_zero.mp ‹0 < b›)
    rw [hxn, hyn]
    push_cast
    field_simp
    ring
  rw [hval] at hb
  exact hb

theorem trimFunc_head (p : Char → Bool) (l : List Char) (c : Char)
    (h : (trimFunc p l).head? = some c) : p c = false := by
  unfold trimFunc at h
  have hpre : (l.dropWhile p).rdropWhile p <+: l.dropWhile p := List.rdropWhile_prefix p _
  obtain ⟨t, ht⟩ := hpre
  cases hr : (l.dropWhile p).rdropWhile p with
  | nil => rw [hr] at h; simp at h
  | cons a as =>
    rw [hr] at h ht
    simp only [List.head?_cons, Option.some.injEq] at h
    subst h
    have hd : (l.dropWhile p).head? = some a := by rw [← ht]; rfl
    have := List.head?_dropWhile_not p l
    rw [hd] at this
    simpa using this

theorem trimFunc_getLast (p : Char → Bool) (l : List Char) (c : Char)
    (h : (trimFunc p l).getLast? = some c) : p c = false := by
  unfold trimFunc at h
  have hne : (l.dropWhile p).rdropWhile p ≠ [] := by
    intro hnil; rw [hnil] at h; simp at h
  have := List.rdropWhile_last_not p (l.dropWhile p) hne
  rw [List.getLast?_eq_getLast _ hne] at h
  simp only [Option.some.injEq] at h
  rw [h] at this
  simpa using this

/-- Every ingredient kept by the loop of `CreateRecipe` is a non-empty string with no
leading and no trailing whitespace. -/
theorem parseIngredients_normalized (ingredientsStr x : String)
    (hx : x ∈ parseIngredients ingredientsStr) :
    x ≠ "" ∧ (∀ c, x.data.head? = some c → isSpace c = false) ∧
      (∀ c, x.data.getLast? = some c → isSpace c = false) := by
  unfold parseIngredients at hx
  obtain ⟨hmem, hne⟩ := List.mem_filter.mp hx
  obtain ⟨piece, _, hpiece⟩ := List.mem_map.mp hmem
  refine ⟨by simpa using hne, ?_, ?_⟩
  · intro c hc
    rw [← hpiece] at hc
    exact trimFunc_head isSpace _ c hc
  · intro c hc
    rw [← hpiece] at hc
    exact trimFunc_getLast isSpace _ c hc

/-! ## Average rating -/

theorem F64.div_exact (x y : F64) (a b M t : Nat) (hx : x.toRat = (a : ℚ))
    (hy : y.toRat = (b : ℚ)) (ha : 0 < a) (hb : 0 < b) (hxd : 0 < x.den) (hyd : 0 < y.den)
    (hM : M < 2 ^ 53) (heq : a * 2 ^ t = M * b) :
    (F64.div x y).toRat = (a : ℚ) / (b : ℚ) := by
  have hxn := F64.toRat_eq x hxd a hx
  have hyn := F64.toRat_eq y hyd b hy
  have hp : 0 < x.num * y.den := by
    rw [hxn]; exact Nat.mul_pos (Nat.mul_pos ha hxd) hyd
  have hq : 0 < x.den * y.num := by
    rw [hyn]; exact Nat.mul_pos hxd (Nat.mul_pos hb hyd)
  have hpq : x.num * y.den * 2 ^ t = M * (x.den * y.num) := by
    rw [hxn, hyn]
    calc a * x.den * y.den * 2 ^ t = a * 2 ^ t * (x.den * y.den) := by ring
      _ = M * b * (x.den * y.den) := by rw [heq]
      _ = M * (x.den * (b * y.den)) := by ring
  have hex := F64.round_exact (x.num * y.den) (x.den * y.num) M t hp hq hM hpq
  show (F64.round (x.num * y.den) (x.den * y.num)).toRat = _
  rw [hex, hxn, hyn]
  have hxdQ : (x.den : ℚ) ≠ 0 := by exact_mod_cast (Nat.pos_iff_ne_zero.mp hxd)
  have hydQ : (y.den : ℚ) ≠ 0 := by exact_mod_cast (Nat.pos_iff_ne_zero.mp hyd)
  have hbQ : (b : ℚ) ≠ 0 := by exact_mod_cast (Nat.pos_iff_ne_zero.mp hb)
  push_cast
  field_simp
  ring

theorem mem_ratingsOf (r : Int) (ops : List IdOp) :
    r ∈ ratingsOf ops ↔ IdOp.rate r ∈ ops := by
  induction ops with
  | nil => simp [ratingsOf]
  | cons op ops ih =>
    cases op with
    | get o => simp [ratingsOf, ih]
    | rate v => simp [ratingsOf, ih]

theorem sum_bounds (l : List Int) (h : ∀ r ∈ l, 1 ≤ r ∧ r ≤ 5) :
    (l.length : Int) ≤ l.sum ∧ l.sum ≤ 5 * (l.length : Int) := by
  induction l with
  | nil => simp
  | cons a t ih =>
    have ha := h a (List.mem_cons_self a t)
    have iht := ih (fun r hr => h r (List.mem_cons_of_mem a hr))
    simp only [List.length_cons, List.sum_cons, Nat.cast_add, Nat.cast_one]
    omega

/-- For a non-empty list of ratings in [1,5] the derived average is the non-negative
double `float64(sum) / float64(count)`; for fewer than 2^50 ratings it lies within a
relative error of 2^-53 of the mean, and it is the mean itself when the mean is a
fraction `M / 2^t` with `M` below 2^53. -/
theorem avg_of_ratings (rs : List Int) (hne : rs ≠ []) (h : ∀ r ∈ rs, 1 ≤ r ∧ r ≤ 5) :
    ∃ a : Double, avg rs = some a ∧
      a = ⟨false, F64.div (F64.ofInt rs.sum.natAbs) (F64.ofInt rs.length)⟩ ∧
      (rs.length < 2 ^ 50 →
        ((rs.sum : ℚ) / (rs.length : ℚ)) * (1 - 1 / 2 ^ 53) ≤ a.toRat ∧
        a.toRat ≤ ((rs.sum : ℚ) / (rs.length : ℚ)) * (1 + 1 / 2 ^ 53)) ∧
      (rs.length < 2 ^ 50 → ∀ M t : Nat, rs.sum * 2 ^ t = (M : Int) * (rs.length : Int) →
        M < 2 ^ 53 → a.toRat = (rs.sum : ℚ) / (rs.length : ℚ)) := by
  have hb := sum_bounds rs h
  have hlen : 0 < rs.length := List.length_pos.mpr hne
  have hsum0 : 0 ≤ rs.sum := by omega
  have hnat : ((rs.sum.natAbs : Nat) : Int) = rs.sum := Int.natAbs_of_nonneg hsum0
  have hcast : (rs.sum : ℚ) = ((rs.sum.natAbs : Nat) : ℚ) := by
    have h1 : ((rs.sum : Int) : ℚ) = (((rs.sum.natAbs : Nat) : Int) : ℚ) := by rw [hnat]
    rw [h1, Int.cast_natCast]
  have hpos : 0 < rs.sum.natAbs := by omega
  refine ⟨⟨false, F64.div (F64.ofInt rs.sum.natAbs) (F64.ofInt rs.length)⟩, ?_, rfl, ?_, ?_⟩
  · unfold avg
    rw [if_neg hne]
    have : decide (rs.sum < 0) = false := by simp [hsum0]
    rw [this]
  · intro hN
    have hS := F64.ofInt_exact rs.sum.natAbs (by omega)
    have hL := F64.ofInt_exact rs.length (by omega)
    have := F64.div_bounds _ _ rs.sum.natAbs rs.length hS.1 hL.1 hpos hlen hS.2.1 hL.2.1
    rw [hcast]
    show _ ≤ ((F64.ofInt rs.sum.natAbs).div (F64.ofInt rs.length)).toRat ∧
      ((F64.ofInt rs.sum.natAbs).div (F64.ofInt rs.length)).toRat ≤ _
    exact ⟨this.1, this.2.1⟩
  · intro hN M t heq hM
    have hS := F64.ofInt_exact rs.sum.natAbs (by omega)
    have hL := F64.ofInt_exact rs.length (by omega)
    have heqN : rs.sum.natAbs * 2 ^ t = M * rs.length := by
      rw [← hnat] at heq
      exact_mod_cast heq
    have := F64.div_exact _ _ rs.sum.natAbs rs.length M t hS.1 hL.1 hpos hlen hS.2.1 hL.2.1
      hM heqN
    rw [hcast]
    show ((F64.ofInt rs.sum.natAbs).div (F64.ofInt rs.length)).toRat = _
    exact this

/-- C3, as the code computes it: let a recipe be created in a reachable state, let `id` be
an id string that parses to its identifier, and let a sequential run of reads of `id`
(with any store outcome) and of N >= 1 ratings r1..rN in [1,5] sent with `id` follow.
Then every rating is answered 200, and in the final state the collection holds that
recipe with ratings [r1,...,rN] in order. Its projection `d` carries as `avg_rating` the
double `float64(r1+...+rN) / float64(N)`, which for N below 2^50 is within a relative
error of 2^-53 of the mean and equal to it when the mean is a fraction `M / 2^t` with `M`
below 2^53. A final read of `id` answers 200 with `d` when its store calls succeed, and
also when an entry is cached under `id`, whatever the store does: that entry is `d`
itself, so a read served from the cache answers the same as a fresh aggregation. -/
theorem ratings_average_after_run (s0 : State) (req : CreateRequest) (env : CreateEnv)
    (created : Recipe) (id : String) (ops : List IdOp) (hs0 : Reachable s0)
    (hcreate : (CreateRecipe s0 req env).resp = ⟨201, .recipe created⟩)
    (hid : ObjectIDFromHex id = some created.ID)
    (hvalid : ∀ r, IdOp.rate r ∈ ops → 1 ≤ r ∧ r ≤ 5)
    (hN : ratingsOf ops ≠ []) :
    rateStatuses id (CreateRecipe s0 req env).state ops =
      List.replicate (ratingsOf ops).length 200 ∧
    ∃ (d : RecipeDoc) (a : Double),
      d.recipe = { created with Ratings := ratingsOf ops } ∧
      d.avg_rating = some a ∧
      a = ⟨false, F64.div (F64.ofInt (ratingsOf ops).sum.natAbs)
        (F64.ofInt (ratingsOf ops).length)⟩ ∧
      ((ratingsOf ops).length < 2 ^ 50 →
        (((ratingsOf ops).sum : ℚ) / ((ratingsOf ops).length : ℚ)) * (1 - 1 / 2 ^ 53) ≤
          a.toRat ∧
        a.toRat ≤
          (((ratingsOf ops).sum : ℚ) / ((ratingsOf ops).length : ℚ)) * (1 + 1 / 2 ^ 53)) ∧
      ((ratingsOf ops).length < 2 ^ 50 → ∀ M t : Nat,
        (ratingsOf ops).sum * 2 ^ t = (M : Int) * ((ratingsOf ops).length : Int) →
        M < 2 ^ 53 →
        a.toRat = ((ratingsOf ops).sum : ℚ) / ((ratingsOf ops).length : ℚ)) ∧
      aggregateByID (run (CreateRecipe s0 req env).state (ops.map (IdOp.toOp id))).store
        created.ID = [d] ∧
      (GetRecipeByID (run (CreateRecipe s0 req env).state (ops.map (IdOp.toOp id))) id
        .ok).resp = ⟨200, .doc d⟩ ∧
      (∀ o cached,
        (run (CreateRecipe s0 req env).state (ops.map (IdOp.toOp id))).cache id =
          some cached →
        cached = d ∧
        (GetRecipeByID (run (CreateRecipe s0 req env).state (ops.map (IdOp.toOp id))) id
          o).resp = ⟨200, .doc d⟩) := by
  have htr := Tracks_run created id hid ops (CreateRecipe s0 req env).state []
    (Tracks_created s0 req env created id hs0 hcreate hid) hvalid
  rw [List.nil_append] at htr
  obtain ⟨⟨hf, hc⟩, hst⟩ := htr
  have hagg : aggregateByID
      (run (CreateRecipe s0 req env).state (ops.map (IdOp.toOp id))).store created.ID =
      [addFields { created with Ratings := ratingsOf ops }] := by
    unfold aggregateByID
    rw [hf]
    rfl
  obtain ⟨a, ha, hval, hbnd, hexact⟩ := avg_of_ratings (ratingsOf ops) hN
    (fun r hr => hvalid r ((mem_ratingsOf r ops).mp hr))
  refine ⟨hst, addFields { created with Ratings := ratingsOf ops }, a, rfl, ha, hval, hbnd,
    hexact, hagg, ?_, ?_⟩
  · rcases hc with hc | hc
    · rw [GetRecipeByID_found _ id created.ID _ [] hid hc hagg]
    · rw [GetRecipeByID_hit _ id .ok created.ID _ hid hc]
  · intro o cached hcached
    rcases hc with hc | hc
    · rw [hc] at hcached
      cases hcached
    · rw [hc] at hcached
      cases hcached
      exact ⟨rfl, by rw [GetRecipeByID_hit _ id o created.ID _ hid hc]⟩

/-- After ratings 4 and 5 interleaved with reads, one of them failing, the final read
returns ratings `[4, 5]` and the average 9/2, which is a double. -/
theorem ratings_average_after_run_witness :
    ∃ (d : RecipeDoc) (a : Double),
      d.recipe = sampleRecipe ["salt"] [4, 5] ∧ d.avg_rating = some a ∧ a.toRat = 9 / 2 ∧
      (GetRecipeByID
        (run (CreateRecipe State.init (sampleCreate "salt") sampleEnv).state
          ([IdOp.get .ok, .rate 4, .get .cursorErr, .rate 5, .get .ok].map
            (IdOp.toOp "65f0a1b2c3d4e5f601234567")))
        "65f0a1b2c3d4e5f601234567" .ok).resp = ⟨200, .doc d⟩ := by
  obtain ⟨_, d, a, h1, h2, _, _, h5, _, h7, _⟩ :=
    ratings_average_after_run State.init (sampleCreate "salt") sampleEnv
      (sampleRecipe ["salt"] []) "65f0a1b2c3d4e5f601234567"
      [IdOp.get .ok, .rate 4, .get .cursorErr, .rate 5, .get .ok]
      ⟨[], rfl⟩ (by decide) (by decide)
      (by
        intro r hr
        simp only [List.mem_cons, IdOp.rate.injEq, reduceCtorEq, List.not_mem_nil,
          false_or, or_false] at hr
        rcases hr with rfl | rfl <;> decide)
      (by simp [ratingsOf])
  refine ⟨d, a, h1, h2, ?_, h7⟩
  have := h5 (by decide) 9 1 (by decide) (by decide)
  rw [this]
  norm_num [ratingsOf]

/-- C3 as stated fails: after a creation and the ratings 1, 1, 2, the read returns as
`avg_rating` the double 6004799503160661 / 2^52, which is not (1+1+2)/3; and when the
`Aggregate` call of the final read fails, the answer is 500, not 200. -/
theorem ratings_average_not_exact :
    (GetRecipeByID
      (run (CreateRecipe State.init (sampleCreate "salt") sampleEnv).state
        ([IdOp.rate 1, .rate 1, .rate 2].map (IdOp.toOp "65f0a1b2c3d4e5f601234567")))
      "65f0a1b2c3d4e5f601234567" .ok).resp =
      ⟨200, .doc ⟨sampleRecipe ["salt"] [1, 1, 2],
        some ⟨false, ⟨6004799503160661, 4503599627370496⟩⟩⟩⟩ ∧
    Double.toRat ⟨false, ⟨6004799503160661, 4503599627370496⟩⟩ ≠ (1 + 1 + 2) / 3 ∧
    (GetRecipeByID
      (run (CreateRecipe State.init (sampleCreate "salt") sampleEnv).state
        ([IdOp.rate 1, .rate 1, .rate 2].map (IdOp.toOp "65f0a1b2c3d4e5f601234567")))
      "65f0a1b2c3d4e5f601234567" .aggregateErr).resp.status = 500 := by
  refine ⟨by decide, ?_, by decide⟩
  norm_num [Double.toRat, F64.toRat]

/-! ## Output geometry -/

end RecipeAPI
